import Mathlib

/-!
Verification of the ledger-file core of the acct repository
(src/acct/ledger.py): data model, lexer, transaction rendering, and the
Ledger store with its indices.  Python string and regex operations are
embedded as executable Lean functions on character lists; Python
exceptions are embedded with Except; decimal.Decimal is embedded as a
scaled integer.
-/

namespace Acct

/-- Python str.isspace / regex whitespace class for ASCII inputs. -/
def pyIsSpace (c : Char) : Bool :=
  c = ' ' || c = '\t' || c = '\n' || c = '\r' || c = '\x0b' || c = '\x0c'

/-- Regex word-character class [a-zA-Z0-9_]. -/
def isWordChar (c : Char) : Bool :=
  ('a' ≤ c && c ≤ 'z') || ('A' ≤ c && c ≤ 'Z') || ('0' ≤ c && c ≤ '9') || c = '_'

/-- Decimal digit. -/
def isDigitChar (c : Char) : Bool := '0' ≤ c && c ≤ '9'

/-- Comment-leading characters of the ledger grammar, the string ";#%|". -/
def isCommentChar (c : Char) : Bool := c = ';' || c = '#' || c = '%' || c = '|'

/-- Character class [a-zA-Z0-9:& .] of the posting-account regex. -/
def isAccountChar (c : Char) : Bool :=
  ('a' ≤ c && c ≤ 'z') || ('A' ≤ c && c ≤ 'Z') || ('0' ≤ c && c ≤ '9') ||
    c = ':' || c = '&' || c = ' ' || c = '.'

/-- Strip whitespace from both ends, as Python str.strip(). -/
def pyStripList (cs : List Char) : List Char :=
  ((cs.dropWhile pyIsSpace).reverse.dropWhile pyIsSpace).reverse

/-- Strip whitespace from the right end, as Python str.rstrip(). -/
def pyRstripList (cs : List Char) : List Char :=
  (cs.reverse.dropWhile pyIsSpace).reverse

/-- Strip a given character from both ends, as Python str.strip(ch). -/
def pyStripCharList (ch : Char) (cs : List Char) : List Char :=
  ((cs.dropWhile (· = ch)).reverse.dropWhile (· = ch)).reverse

/-- Python str.strip() on strings. -/
def pyStrip (s : String) : String := String.mk (pyStripList s.toList)

/-- Python str.rstrip() on strings. -/
def pyRstrip (s : String) : String := String.mk (pyRstripList s.toList)

/-- Split on a single separator character, as Python str.split(c):
splits at every occurrence, keeping empty parts. -/
def splitChar (sep : Char) : List Char → List (List Char)
  | [] => [[]]
  | c :: rest =>
    let r := splitChar sep rest
    if c = sep then [] :: r
    else
      match r with
      | h :: t => (c :: h) :: t
      | [] => [[c]]

/-- First index at which the pattern occurs as a contiguous sublist. -/
def findSubIdx (pat : List Char) : List Char → Option Nat
  | [] => if pat.isEmpty then some 0 else none
  | c :: rest =>
    if pat.isPrefixOf (c :: rest) then some 0
    else (findSubIdx pat rest).map (· + 1)

/-- Fuel-driven worker for splitting on a multi-character separator. -/
def splitStrAux (sep : List Char) : Nat → List Char → List (List Char)
  | 0, cs => [cs]
  | fuel + 1, cs =>
    match findSubIdx sep cs with
    | none => [cs]
    | some i => cs.take i :: splitStrAux sep fuel (cs.drop (i + sep.length))

/-- Python str.split(sep) for a non-empty separator string. -/
def pySplitStr (sep s : String) : List String :=
  (splitStrAux sep.toList (s.toList.length + 1) s.toList).map String.mk

/-- Fuel-driven worker for replacing occurrences of a pattern. -/
def replaceAux (old new : List Char) : Nat → List Char → List Char
  | 0, cs => cs
  | fuel + 1, cs =>
    match cs with
    | [] => []
    | c :: rest =>
      if old.isPrefixOf (c :: rest) then
        new ++ replaceAux old new fuel ((c :: rest).drop old.length)
      else
        c :: replaceAux old new fuel rest

/-- Python str.replace(old, new) for a non-empty pattern: replaces every
non-overlapping occurrence left to right. -/
def pyReplace (s old new : String) : String :=
  if old.toList.isEmpty then s
  else String.mk (replaceAux old.toList new.toList (s.toList.length + 1) s.toList)

/-- Split a string into its lines, each keeping its trailing newline, as a
line-by-line file reader yields them. -/
def linesKeepEndsAux : List Char → List Char → List (List Char)
  | [], acc => if acc.isEmpty then [] else [acc.reverse]
  | c :: rest, acc =>
    if c = '\n' then (acc.reverse ++ ['\n']) :: linesKeepEndsAux rest []
    else linesKeepEndsAux rest (c :: acc)

/-- Lines of a string with their newline terminators kept. -/
def linesKeepEnds (s : String) : List String :=
  (linesKeepEndsAux s.toList []).map String.mk

/-- Python str.split() with no argument: split on whitespace runs,
dropping empty parts. -/
def pySplitWs (s : String) : List String :=
  (s.toList.splitOnP pyIsSpace).filter (fun p => ¬ p.isEmpty) |>.map String.mk

/-- Concatenation of a list of strings, as Python "".join. -/
def pyConcat (parts : List String) : String := parts.foldl (· ++ ·) ""

/-- Interspersed join, as Python sep.join(parts). -/
def pyJoinSep (sep : String) : List String → String
  | [] => ""
  | p :: ps => ps.foldl (fun acc q => acc ++ sep ++ q) p

/-- Numeric value of a list of decimal digits. -/
def digitsToNat (cs : List Char) : Nat :=
  cs.foldl (fun n c => 10 * n + (c.toNat - '0'.toNat)) 0

/-- Python int(s) for a non-negative integer literal: surrounding
whitespace allowed, at least one digit required. -/
def pyIntNat (s : String) : Except Unit Nat :=
  let cs := pyStripList s.toList
  if cs.isEmpty then .error ()
  else if cs.all isDigitChar then .ok (digitsToNat cs) else .error ()

/-- Pad a string on the left with zeros to the given width. -/
def padZeros (w : Nat) (s : String) : String :=
  if s.length < w then String.mk (List.replicate (w - s.length) '0') ++ s else s

/-- Pad a string on the left with spaces to the given width, as the
format spec ">Ns". -/
def padLeftSpaces (w : Nat) (s : String) : String :=
  if s.length < w then String.mk (List.replicate (w - s.length) ' ') ++ s else s

/-- Pad a string on the right with spaces to the given width, as the
format spec "Ns" for strings. -/
def padRightSpaces (w : Nat) (s : String) : String :=
  if s.length < w then s ++ String.mk (List.replicate (w - s.length) ' ') else s

/-- Embedding of decimal.Decimal values as produced by this code base:
an integer mantissa with a decimal scale,`mantissa / 10^scale`. -/
structure PyDecimal where
  mantissa : Int
  scale : Nat
deriving DecidableEq, Repr

/-- Exact rational value of a decimal. -/
def PyDecimal.val (d : PyDecimal) : ℚ := (d.mantissa : ℚ) / ((10 : ℚ) ^ d.scale)

/-- Decimal(s) for plain literals [+-]digits[.digits]; none embeds the
decimal.InvalidOperation raised on anything else (in particular on the
empty string). -/
def PyDecimal.parse (s : String) : Option PyDecimal :=
  let cs := s.toList
  let signed : Int × List Char :=
    match cs with
    | '+' :: r => (1, r)
    | '-' :: r => (-1, r)
    | r => (1, r)
  let ip := signed.2.takeWhile isDigitChar
  let rest := signed.2.drop ip.length
  match rest with
  | [] => if ip.isEmpty then none else some ⟨signed.1 * (digitsToNat ip : Int), 0⟩
  | '.' :: fr =>
    let fp := fr.takeWhile isDigitChar
    if ¬ (fr.drop fp.length).isEmpty then none
    else if ip.isEmpty && fp.isEmpty then none
    else some ⟨signed.1 * (digitsToNat (ip ++ fp) : Int), fp.length⟩
  | _ => none

/-- Rendering of a decimal under the "f" format spec: its exact value
with exactly `scale` fractional digits. -/
def PyDecimal.toFString (d : PyDecimal) : String :=
  let n := d.mantissa.natAbs
  let base := 10 ^ d.scale
  let ipart := Nat.repr (n / base)
  let fstr := if d.scale = 0 then "" else "." ++ padZeros d.scale (Nat.repr (n % base))
  (if d.mantissa < 0 then "-" else "") ++ ipart ++ fstr

/-- Calendar date, as datetime.date: a date with no time component. -/
structure LDate where
  year : Nat
  month : Nat
  day : Nat
deriving DecidableEq, Repr

/-- Gregorian leap-year test. -/
def isLeapYear (y : Nat) : Bool := (y % 4 = 0 && y % 100 ≠ 0) || y % 400 = 0

/-- Days in a month of a year. -/
def daysInMonth (y m : Nat) : Nat :=
  if m = 2 then (if isLeapYear y then 29 else 28)
  else if m = 4 || m = 6 || m = 9 || m = 11 then 30
  else 31

/-- Validity domain of datetime.date. -/
def LDate.isValid (d : LDate) : Bool :=
  1 ≤ d.year && d.year ≤ 9999 && 1 ≤ d.month && d.month ≤ 12 &&
    1 ≤ d.day && d.day ≤ daysInMonth d.year d.month

/-- Zero-padded numeral of the given width. -/
def padNum (w n : Nat) : String := padZeros w (Nat.repr n)

/-- strftime "%Y-%m-%d". -/
def LDate.toISO (d : LDate) : String :=
  padNum 4 d.year ++ "-" ++ padNum 2 d.month ++ "-" ++ padNum 2 d.day

/-- Embedded Python exceptions raised by the ledger module. -/
inductive PyEx where
  | fileNotFoundError
  | typeError
  | attributeError
  | valueError
  | indexError
  | keyError
  | invalidOperation
  | stopIteration
  | parsingError (line : String)
  | tooFewPostings (raw : String)
  | tagArityError
deriving DecidableEq, Repr

/-- Parse a year/month/day string to a date, the module-level
datestr_to_date helper: replace "-" by "/", split on "/", unpack three
fields and build a datetime.date (ValueError on a bad unpack, a
non-numeric field, or an out-of-range date). -/
def datestr_to_date (datestr : String) : Except PyEx LDate :=
  let s2 := pyReplace datestr "-" "/"
  match (splitChar '/' s2.toList).map String.mk with
  | [y, m, dy] =>
    match pyIntNat y, pyIntNat m, pyIntNat dy with
    | .ok yn, .ok mn, .ok dn =>
      let d : LDate := ⟨yn, mn, dn⟩
      if d.isValid then .ok d else .error .valueError
    | _, _, _ => .error .valueError
  | _ => .error .valueError

/-- Transaction reconciliation status. -/
inductive LedgerStatus where
  | cleared
  | pending
  | unknown
deriving DecidableEq, Repr

/-- Status enum value as written in a ledger file. -/
def LedgerStatus.value : LedgerStatus → String
  | .cleared => "*"
  | .pending => "!"
  | .unknown => ""

/-- Free-text note with a flag controlling whether it renders on its own
line, LedgerNote in the source. -/
structure LedgerNote where
  value : String
  newline : Bool := true
  comment : String := ";"
deriving DecidableEq, Repr

/-- Tag with an optional value, LedgerTag in the source. -/
structure LedgerTag where
  name : String
  value : String := ""
  newline : Bool := true
  comment : String := ";"
deriving DecidableEq, Repr

/-- Key/value option of a commodity block. -/
structure LedgerCommodityOption where
  name : String
  value : String := ""
deriving DecidableEq, Repr

/-- Commodity directive with its indented options. -/
structure LedgerCommodity where
  name : String
  options : List LedgerCommodityOption := []
deriving DecidableEq, Repr

/-- Posting of a transaction, LedgerTransactionPost in the source. -/
structure LedgerTransactionPost where
  date : LDate
  notes : List LedgerNote := []
  tags : List LedgerTag := []
  account : String := ""
  amount : Option PyDecimal := none
  commodity : String := "USD"
deriving DecidableEq, Repr

/-- Transaction with payee, status, notes, tags and postings,
LedgerTransaction in the source. -/
structure LedgerTransaction where
  date : LDate
  notes : List LedgerNote := []
  tags : List LedgerTag := []
  payee : String := ""
  posts : List LedgerTransactionPost := []
  raw : String := ""
  status : LedgerStatus := .unknown
  id : String := ""
deriving DecidableEq, Repr

/-- Result of parsing the first line of a transaction block. -/
structure FirstLineTransactionGroup where
  date : LDate
  status : LedgerStatus
  payee : String
  note : Option LedgerNote
deriving DecidableEq, Repr

/-- Note rendering: an own-line note is prefixed by a newline, the
indent and the comment character; an inline note by two spaces and the
comment character. -/
def LedgerNote.to_string (n : LedgerNote) (indent : Nat) : String :=
  let ind := String.mk (List.replicate indent ' ')
  let pre := if n.newline then "\n" ++ ind ++ n.comment ++ " " else "  " ++ n.comment ++ " "
  pre ++ n.value

/-- Tag rendering: with a value as "name: value", without as ":name:",
prefixed like a note. -/
def LedgerTag.to_string (t : LedgerTag) (indent : Nat) : String :=
  let ind := String.mk (List.replicate indent ' ')
  let pre := if t.newline then "\n" ++ ind ++ t.comment ++ " " else "  " ++ t.comment ++ " "
  if t.value ≠ "" then pre ++ t.name ++ ": " ++ t.value
  else pre ++ ":" ++ t.name ++ ":"

/-- Posting rendering: newline, indent, account left-padded to the
longest account width, four spaces, then when an amount is present the
amount right-aligned to 16 characters under the "f" format followed by
the commodity code, then the posting's own notes and tags. -/
def LedgerTransactionPost.to_string
    (p : LedgerTransactionPost) (indent maxAccountLen : Nat) : String :=
  let ind := String.mk (List.replicate indent ' ')
  let head := "\n" ++ ind ++ padRightSpaces maxAccountLen p.account ++ "    "
  let amt :=
    match p.amount with
    | some a => padLeftSpaces 16 a.toFString ++ " " ++ p.commodity
    | none => ""
  head ++ amt ++ pyConcat (p.notes.map (·.to_string (indent * 2)))
    ++ pyConcat (p.tags.map (·.to_string (indent * 2)))

/-- Sort key used for postings: negated amount value when present, the
1e20 sentinel when absent (amount-less postings render last). -/
def postSortKey (p : LedgerTransactionPost) : ℚ :=
  match p.amount with
  | some a => -a.val
  | none => (10 : ℚ) ^ (20 : Nat)

/-- Exact comparison of the posting sort keys of two postings, by
integer cross multiplication (the rational keys have positive
power-of-ten denominators); equivalent to postSortKey p ≤ postSortKey q
by postSortKeyLe_iff below. -/
def postSortKeyLe (p q : LedgerTransactionPost) : Bool :=
  match p.amount, q.amount with
  | some a, some b => -a.mantissa * 10 ^ b.scale ≤ -b.mantissa * 10 ^ a.scale
  | some a, none => -a.mantissa ≤ 10 ^ (20 + a.scale)
  | none, some b => 10 ^ (20 + b.scale) ≤ -b.mantissa
  | none, none => true

/-- Stable insertion keeping existing elements with a key not above the
new element's key in front of it. -/
def insertByKey (x : LedgerTransactionPost) :
    List LedgerTransactionPost → List LedgerTransactionPost
  | [] => [x]
  | y :: ys => if postSortKeyLe y x then y :: insertByKey x ys else x :: y :: ys

/-- Stable ascending sort by the posting sort key, as Python sorted. -/
def sortPosts (ps : List LedgerTransactionPost) : List LedgerTransactionPost :=
  ps.foldl (fun acc p => insertByKey p acc) []

/-- Transaction rendering: ISO date, status character, payee on the
first line; the transaction's notes and tags; then its postings in
descending order of amount, account names padded to the longest account
length; a final newline. -/
def LedgerTransaction.to_string (t : LedgerTransaction) (indent : Nat) : String :=
  let first := t.date.toISO ++ " " ++ t.status.value ++ " " ++ t.payee
  let notesStr := pyConcat (t.notes.map (·.to_string indent))
  let tagsStr := pyConcat (t.tags.map (·.to_string indent))
  let maxLen := t.posts.foldl (fun m p => max m p.account.length) 0
  let postsStr := pyConcat ((sortPosts t.posts).map (·.to_string indent maxLen))
  first ++ notesStr ++ tagsStr ++ postsStr ++ "\n"

/-- Commodity rendering: the directive line then one indented option
line per option. -/
def LedgerCommodity.to_string (c : LedgerCommodity) (indent : Nat) : String :=
  let ind := String.mk (List.replicate indent ' ')
  "commodity " ++ c.name ++ "\n"
    ++ pyConcat (c.options.map (fun o => ind ++ o.name ++ " " ++ o.value ++ "\n"))

/-- Tag directive rendering. -/
def tagDirectiveToString (name : String) : String := "tag " ++ name ++ "\n"

/-!
Lexer matchers.  Each embeds one of the compiled regular expressions of
LedgerLexer, with Python's leftmost, greedy, backtracking semantics made
explicit for the specific pattern.
-/

/-- Matcher for a trailing group-and-anchor, the regex tail
(.*)dollar without MULTILINE: the dot excludes a newline and the dollar
anchor matches at the end of the string or just before one final
newline. -/
def restLine (cs : List Char) : Option (List Char) :=
  let body := cs.takeWhile (· ≠ '\n')
  match cs.drop body.length with
  | [] => some body
  | ['\n'] => some body
  | _ => none

/-- item_comment_regex, one-or-more whitespace then one-or-more comment
characters then the captured rest of the line; returns capture group 1.
The whitespace and comment classes are disjoint, so the greedy runs are
the maximal ones. -/
def item_comment_match (line : String) : Option String :=
  let cs := line.toList
  let ws := cs.takeWhile pyIsSpace
  if ws.isEmpty then none
  else
    let r1 := cs.drop ws.length
    let cm := r1.takeWhile isCommentChar
    if cm.isEmpty then none
    else (restLine (r1.drop cm.length)).map String.mk

/-- The ten-character date prefix of transaction_first_line_regex: four
digits, a hyphen or slash separator, two digits, a separator, two
digits.  Returns the date string and the rest. -/
def matchDatePat : List Char → Option (List Char × List Char)
  | a :: b :: c :: d :: s1 :: e :: f :: s2 :: g :: h :: rest =>
    if [a, b, c, d].all isDigitChar && (s1 = '-' || s1 = '/')
        && [e, f].all isDigitChar && (s2 = '-' || s2 = '/')
        && [g, h].all isDigitChar then
      some ([a, b, c, d, s1, e, f, s2, g, h], rest)
    else none
  | _ => none

/-- transaction_first_line_regex: the date group, one-or-more
whitespace, an optional status character, and the captured rest of the
line.  The status class also lists a space, but the greedy whitespace
run before it ends at a non-whitespace character, so only the asterisk
and the exclamation mark can be captured. -/
def firstLineMatch (line : String) : Option (String × Option Char × String) :=
  match matchDatePat line.toList with
  | none => none
  | some (ds, rest) =>
    let ws := rest.takeWhile pyIsSpace
    if ws.isEmpty then none
    else
      let rest2 := rest.drop ws.length
      let scr : Option Char × List Char :=
        match rest2 with
        | '*' :: r => (some '*', r)
        | '!' :: r => (some '!', r)
        | r => (none, r)
      match restLine scr.2 with
      | none => none
      | some body => some (String.mk ds, scr.1, String.mk body)

/-- tag_with_value_regex, anchored at both ends: one-or-more
whitespace, one-or-more word characters, one colon, then a colon-free
rest.  findall on this anchored pattern yields at most one match, the
whole string, which is what is returned. -/
def tag_with_value_match (comment : String) : Option String :=
  let cs := comment.toList
  let ws := cs.takeWhile pyIsSpace
  if ws.isEmpty then none
  else
    let r1 := cs.drop ws.length
    let w := r1.takeWhile isWordChar
    if w.isEmpty then none
    else
      match r1.drop w.length with
      | ':' :: rest => if rest.all (· ≠ ':') then some comment else none
      | _ => none

/-- Index of the last occurrence of a character. -/
def lastIdxOf (ch : Char) (cs : List Char) : Option Nat :=
  (cs.reverse.findIdx? (· = ch)).map (fun ir => cs.length - 1 - ir)

/-- Scanning worker for findall of tag_without_value_regex, a colon, a
non-empty greedy run of word-or-colon characters, a final colon: at a
colon the greedy run is the maximal word-or-colon run after it, and
backtracking ends the match at the last colon of that run provided at
least one character stands before it; otherwise the scan advances one
character.  Matches do not overlap: scanning resumes after a match. -/
def findallNoValAux : Nat → List Char → List (List Char)
  | 0, _ => []
  | _ + 1, [] => []
  | fuel + 1, c :: rest =>
    if c = ':' then
      let run := rest.takeWhile (fun ch => isWordChar ch || ch = ':')
      match lastIdxOf ':' run with
      | some i =>
        if 1 ≤ i then (':' :: run.take (i + 1)) :: findallNoValAux fuel (rest.drop (i + 1))
        else findallNoValAux fuel rest
      | none => findallNoValAux fuel rest
    else findallNoValAux fuel rest

/-- findall of tag_without_value_regex over a comment. -/
def tag_without_value_findall (comment : String) : List String :=
  (findallNoValAux (comment.toList.length + 1) comment.toList).map String.mk

/-- The separator group of post_acount_regex, alternatives tried in
order: a greedy run of two-or-more spaces, a tab, a newline, a carriage
return with a newline.  Returns the separator length and the rest. -/
def sepMatch (cs : List Char) : Option (Nat × List Char) :=
  let sp := cs.takeWhile (· = ' ')
  if 2 ≤ sp.length then some (sp.length, cs.drop sp.length)
  else
    match cs with
    | '\t' :: r => some (1, r)
    | '\n' :: r => some (1, r)
    | '\r' :: '\n' :: r => some (2, r)
    | _ => none

/-- Backtracking over the greedy account group: the group candidate is
given reversed; the longest candidate whose remainder starts with a
separator wins, the trailing whitespace run after the separator is then
consumed.  Returns the group in order and the unconsumed rest. -/
def g1Shrink : List Char → List Char → Option (List Char × List Char)
  | [], _ => none
  | c :: g1rev, rest =>
    match sepMatch rest with
    | some (_, r) => some ((c :: g1rev).reverse, r.dropWhile pyIsSpace)
    | none => g1Shrink g1rev (c :: rest)

/-- Account-group search at one whitespace boundary: the candidate is
the maximal run of account-class characters. -/
def tryAccountGroup (tail : List Char) : Option (List Char × List Char) :=
  let g1 := tail.takeWhile isAccountChar
  g1Shrink g1.reverse (tail.drop g1.length)

/-- Backtracking over the leading greedy whitespace run of
post_acount_regex: longer runs are tried first, then characters are
given back one at a time (the account class contains the space, so a
shorter leading run can lengthen the account group). -/
def wsLoop : List Char → List Char → Option (List Char × List Char)
  | [], tail => tryAccountGroup tail
  | c :: wsRev2, tail =>
    match tryAccountGroup tail with
    | some res => some res
    | none => wsLoop wsRev2 (c :: tail)

/-- post_acount_regex: leading whitespace, a greedy run of account
characters, a hard separator, trailing whitespace.  Returns the whole
match m0 and the account group m1. -/
def post_acount_match (line : String) : Option (String × String) :=
  let cs := line.toList
  let ws := cs.takeWhile pyIsSpace
  match wsLoop ws.reverse (cs.drop ws.length) with
  | some (g1, restFinal) =>
    some (String.mk (cs.take (cs.length - restFinal.length)), String.mk g1)
  | none => none

/-- Capture group of post_amount_regex, an optional dollar sign,
whitespace, an optional sign and a possibly empty run of digits,
pluses, dots and commas: the pattern matches every string, with a
possibly empty group. -/
def post_amount_group (s : String) : String :=
  let cs := s.toList
  let cs1 := match cs with | '$' :: r => r | r => r
  let cs2 := cs1.dropWhile pyIsSpace
  let sg : List Char × List Char :=
    match cs2 with
    | '-' :: r => (['-'], r)
    | '+' :: r => (['+'], r)
    | r => ([], r)
  String.mk (sg.1 ++ sg.2.takeWhile (fun c => isDigitChar c || c = '+' || c = '.' || c = ','))

/-- Search for the inline-note pattern of a posting line, a greedy
leading run then a comment character: the greedy run makes the last
comment character before the line's newline the one matched; the note
group is the rest with its leading whitespace consumed. -/
def post_note_match (line : String) : Option String :=
  let content := line.toList.takeWhile (· ≠ '\n')
  (content.reverse.findIdx? isCommentChar).map (fun ir =>
    let i := content.length - 1 - ir
    String.mk ((content.drop (i + 1)).dropWhile pyIsSpace))

/-- Search for a hard separator between payee and inline note: at each
position, first a single tab, carriage return or newline, else a greedy
run of two-or-more spaces. -/
def findHardSepAux : List Char → Option (List Char)
  | [] => none
  | c :: rest =>
    if c = '\t' || c = '\r' || c = '\n' then some [c]
    else if c = ' ' && rest.head? = some ' ' then some (c :: rest.takeWhile (· = ' '))
    else findHardSepAux rest

/-- Search for the first comment character in an inline-note remainder;
the note is the rest with leading whitespace consumed, up to a
newline. -/
def noteAfterCommentChar (s : String) : Option String :=
  let rec go : List Char → Option String
    | [] => none
    | c :: rest =>
      if isCommentChar c then
        some (String.mk ((rest.dropWhile pyIsSpace).takeWhile (· ≠ '\n')))
      else go rest
  go s.toList

/-!
Lexer parse functions, one per LedgerLexer method.
-/

/-- parse_tag_with_values: split the first match on the colon, demand
exactly two parts (else the arity error), strip both. -/
def parse_tag_with_values (ms : List String) : Except PyEx LedgerTag :=
  match ms with
  | [] => .error .indexError
  | m :: _ =>
    match (splitChar ':' m.toList).map String.mk with
    | [a, b] => .ok { name := pyStrip a, value := pyStrip b }
    | _ => .error .tagArityError

/-- parse_tag_without_values: strip outer colons from each match, split
on colons, one empty-valued tag per name. -/
def parse_tag_without_values (ms : List String) : List LedgerTag :=
  (ms.map (fun m =>
    (splitChar ':' (pyStripCharList ':' m.toList)).map
      (fun nm => ({ name := String.mk nm } : LedgerTag)))).flatten

/-- parse_item_comment: first the tag-with-value pattern, then the
tag-list pattern, else a plain stripped note. -/
def parse_item_comment (comment : String) :
    Except PyEx (List LedgerNote × List LedgerTag) :=
  match tag_with_value_match comment with
  | some m => do
    let tg ← parse_tag_with_values [m]
    .ok ([], [tg])
  | none =>
    match tag_without_value_findall comment with
    | [] => .ok ([{ value := pyStrip comment }], [])
    | ms => .ok ([], parse_tag_without_values ms)

/-- parse_transaction_post: match the account regex (TypeError through
the subscript of None when it fails), right-strip the account group,
delete the whole match from the line and strip to get the amount
remainder; a non-empty remainder is fed through the amount regex and
Decimal (raising decimal.InvalidOperation on an empty or malformed
group after commas are removed), an empty remainder yields no amount;
a comment character on the line contributes an inline note. -/
def parse_transaction_post (line : String) (date : LDate) :
    Except PyEx LedgerTransactionPost :=
  match post_acount_match line with
  | none => .error .typeError
  | some (m0, m1) =>
    let account := pyRstrip m1
    let amount_string := pyStrip (pyReplace line m0 "")
    let amountE : Except PyEx (Option PyDecimal) :=
      if amount_string.length > 0 then
        match PyDecimal.parse (pyReplace (post_amount_group amount_string) "," "") with
        | some d => .ok (some d)
        | none => .error .invalidOperation
      else .ok none
    do
      let amount ← amountE
      let note : List LedgerNote :=
        match post_note_match line with
        | some v => [{ value := v, newline := false }]
        | none => []
      .ok { date := date, notes := note, account := account, amount := amount }

/-- The payee/inline-note block of parse_first_line_of_transaction:
when the stripped payee-and-note group holds a hard separator, split on
it into payee and note remainder (ValueError unless the split has
exactly two parts) and read the note after its comment character;
otherwise the whole group is the payee and there is no note. -/
def payee_and_note_of (payee_and_note : String) :
    Except PyEx (String × Option LedgerNote) :=
  match findHardSepAux payee_and_note.toList with
  | some sep =>
    match pySplitStr (String.mk sep) payee_and_note with
    | [p, nwc] =>
      let note : Option LedgerNote :=
        match noteAfterCommentChar nwc with
        | some v => some { value := v, newline := false }
        | none => none
      .ok (p, note)
    | _ => .error .valueError
  | none => .ok (payee_and_note, none)

/-- parse_first_line_of_transaction: match the first-line regex
(TypeError through the subscript of None when it fails), strip the
payee-and-note group and split off any inline note, convert the date
string, and map the status character, asterisk to cleared, exclamation
mark to pending, anything else to unknown. -/
def parse_first_line_of_transaction (line : String) :
    Except PyEx FirstLineTransactionGroup :=
  match firstLineMatch line with
  | none => .error .typeError
  | some (datestr, status_char, m3) => do
    let pn2 ← payee_and_note_of (pyStrip m3)
    let date ← datestr_to_date datestr
    let status :=
      if status_char = some '*' then LedgerStatus.cleared
      else if status_char = some '!' then LedgerStatus.pending
      else LedgerStatus.unknown
    .ok { date := date, status := status, payee := pyStrip pn2.1, note := pn2.2 }

/-- First loop of parse_transaction: consume leading comment lines as
transaction-level notes and tags; the result also carries the line the
loop broke on (the empty string when the block ran out) and the lines
after it. -/
def scanComments : List String →
    Except PyEx (List LedgerNote × List LedgerTag × String × List String)
  | [] => .ok ([], [], "", [])
  | l :: ls =>
    match item_comment_match l with
    | some c => do
      let nt ← parse_item_comment c
      let rest ← scanComments ls
      .ok (nt.1 ++ rest.1, nt.2 ++ rest.2.1, rest.2.2.1, rest.2.2.2)
    | none => .ok ([], [], l, ls)

/-- Second loop of parse_transaction: comment lines attach to the
pending posting, other lines flush it and start a new posting; the
pending posting is flushed after the loop. -/
def scanPosts (date : LDate) : LedgerTransactionPost → List LedgerTransactionPost →
    List String → Except PyEx (List LedgerTransactionPost)
  | post, acc, [] => .ok (acc ++ [post])
  | post, acc, l :: ls =>
    match item_comment_match l with
    | some c => do
      let nt ← parse_item_comment c
      scanPosts date { post with notes := post.notes ++ nt.1, tags := post.tags ++ nt.2 } acc ls
    | none => do
      let p ← parse_transaction_post l date
      scanPosts date p (acc ++ [post]) ls

/-- parse_transaction over a block of lines: parse the first line,
consume transaction-level comments, parse the postings, and reject a
transaction with at most one posting with an error carrying the joined
raw block text.  The uuid4 identifier is modeled by a placeholder, as
it is never derived from content and no property depends on it. -/
def parse_transaction (group : List String) : Except PyEx LedgerTransaction :=
  match group with
  | [] => .error .indexError
  | l1 :: rest => do
    let res ← parse_first_line_of_transaction l1
    let com ← scanComments rest
    let post ← parse_transaction_post com.2.2.1 res.date
    let posts ← scanPosts res.date post [] com.2.2.2
    let tx : LedgerTransaction :=
      { date := res.date, payee := res.payee, status := res.status,
        notes := (match res.note with | some n => [n] | none => []) ++ com.1,
        tags := com.2.1, raw := pyConcat group, posts := posts, id := "" }
    if posts.length ≤ 1 then .error (.tooFewPostings tx.raw)
    else .ok tx

/-- One key-value option line of a commodity block. -/
def commodityOption (line : String) : Except PyEx LedgerCommodityOption :=
  match pySplitWs line with
  | [] => .error .valueError
  | k :: vs => .ok { name := k, value := pyJoinSep " " vs }

/-- parse_commodity: the name is the second whitespace-separated field
of the first line (IndexError when missing), each further line one
option. -/
def parse_commodity (group : List String) : Except PyEx LedgerCommodity :=
  match group with
  | [] => .error .indexError
  | l0 :: rest =>
    match pySplitWs l0 with
    | _ :: name :: _ => do
      let opts ← rest.mapM commodityOption
      .ok { name := pyStrip name, options := opts }
    | _ => .error .indexError

/-- Token union emitted by the lexer. -/
inductive LedgerToken where
  | newLine
  | commodity (c : LedgerCommodity)
  | tagDirective (name : String)
  | transaction (t : LedgerTransaction)
deriving DecidableEq, Repr

/-- Rendering of a token, dispatching on its kind. -/
def LedgerToken.to_string : LedgerToken → String
  | .newLine => "\n"
  | .commodity c => c.to_string 4
  | .tagDirective n => tagDirectiveToString n
  | .transaction t => t.to_string 4

/-- commodity_regex, case-insensitive, either the word commodity or the
letter c followed by a whitespace character at the start of the line. -/
def commodity_match (line : String) : Bool :=
  match line.toList.map Char.toLower with
  | 'c' :: 'o' :: 'm' :: 'm' :: 'o' :: 'd' :: 'i' :: 't' :: 'y' :: c :: _ => pyIsSpace c
  | 'c' :: c :: _ => pyIsSpace c
  | _ => false

/-- tag_directive_regex, case-insensitive, the word tag followed by a
whitespace character at the start of the line. -/
def tag_directive_match (line : String) : Bool :=
  match line.toList.map Char.toLower with
  | 't' :: 'a' :: 'g' :: c :: _ => pyIsSpace c
  | _ => false

/-- Commodity-block grouping: lines are right-stripped as they are
read and collected while non-empty; reaching the end of the file inside
the block raises StopIteration (the source calls next without a
default there). -/
def takeCommodityGroup : List String → Except PyEx (List String × List String)
  | [] => .error .stopIteration
  | l :: ls =>
    let r := pyRstrip l
    if r = "" then .ok ([], ls)
    else do
      let gr ← takeCommodityGroup ls
      .ok (r :: gr.1, gr.2)

/-- Transaction-block grouping: lines are collected unmodified while
not blank; a blank line or the end of the file ends the block. -/
def takeTransactionGroup : List String → List String × List String
  | [] => ([], [])
  | l :: ls =>
    if pyStrip l = "" then ([], ls)
    else
      let gr := takeTransactionGroup ls
      (l :: gr.1, gr.2)

/-- Fuel-driven tokenize worker over the file's lines, classifying each
line in the source's order: commodity, tag directive, transaction
first line, blank, else a fatal parsing error carrying the line.  Each
step consumes at least one line, so fuel one beyond the line count
never runs out. -/
def tokenizeAux : Nat → List String → Except PyEx (List LedgerToken)
  | 0, _ => .ok []
  | _ + 1, [] => .ok []
  | fuel + 1, line :: rest =>
    if commodity_match line then do
      let gr ← takeCommodityGroup rest
      let c ← parse_commodity (line :: gr.1)
      let ts ← tokenizeAux fuel gr.2
      .ok (.commodity c :: .newLine :: ts)
    else if tag_directive_match line then do
      let name := pyStrip (String.mk (line.toList.drop 3))
      let ts ← tokenizeAux fuel rest
      .ok (.tagDirective name :: ts)
    else if (firstLineMatch line).isSome then do
      let gr := takeTransactionGroup rest
      let t ← parse_transaction (line :: gr.1)
      let ts ← tokenizeAux fuel gr.2
      .ok (.transaction t :: .newLine :: ts)
    else if pyRstrip line = "" then do
      let ts ← tokenizeAux fuel rest
      .ok (.newLine :: ts)
    else .error (.parsingError line)

/-- LedgerLexer.tokenize over the contents of the file. -/
def tokenize (content : String) : Except PyEx (List LedgerToken) :=
  let ls := linesKeepEnds content
  tokenizeAux (ls.length + 1) ls

/-!
The Ledger store: the token stream, the transaction map, and the five
indices.  Python sets are embedded as finite sets of identifier
strings, the defaultdicts as total functions into them.
-/

/-- Set-style insertion into a bucket, Python set.add: adds the
identifier only when it is not yet a member. -/
def addId (id_ : String) (l : List String) : List String :=
  if id_ ∈ l then l else id_ :: l

/-- Pointwise bucket update, defaultdict bucket insertion. -/
def updFn [DecidableEq α] (f : α → List String) (k : α) (id_ : String) :
    α → List String :=
  fun x => if x = k then addId id_ (f k) else f x

/-- Two-level bucket update for the tag-with-value index. -/
def updFn2 (f : String → String → List String) (k1 k2 : String) (id_ : String) :
    String → String → List String :=
  fun a b => if a = k1 ∧ b = k2 then addId id_ (f a b) else f a b

/-- The Ledger store state. -/
structure Ledger where
  tokens : List LedgerToken := []
  transactions : String → Option LedgerTransaction := fun _ => none
  commodities : List LedgerCommodity := []
  tag_directives : List String := []
  accounts : String → List String := fun _ => []
  payees : String → List String := fun _ => []
  dates : LDate → List String := fun _ => []
  tags : String → List String := fun _ => []
  tagsv : String → String → List String := fun _ _ => []

/-- A freshly constructed Ledger: everything empty. -/
def emptyLedger : Ledger := {}

/-- Indexing of one tag: with a value into the (name, value) index,
without into the name index. -/
def saveTagIndex (id_ : String) (st : Ledger) (tag : LedgerTag) : Ledger :=
  if tag.value ≠ "" then { st with tagsv := updFn2 st.tagsv tag.name tag.value id_ }
  else { st with tags := updFn st.tags tag.name id_ }

/-- Indexing of one posting: its account bucket, then its own tags. -/
def savePost (id_ : String) (st : Ledger) (post : LedgerTransactionPost) : Ledger :=
  post.tags.foldl (saveTagIndex id_) { st with accounts := updFn st.accounts post.account id_ }

/-- Ledger.save_transaction: register the transaction under its
identifier and insert the identifier into the payee bucket, the date
bucket, the bucket of each tag, and the account bucket of every
posting together with the posting's tags. -/
def Ledger.save_transaction (st : Ledger) (t : LedgerTransaction) : Ledger :=
  let st1 : Ledger :=
    { st with
      transactions := fun i => if i = t.id then some t else st.transactions i,
      payees := updFn st.payees t.payee t.id,
      dates := updFn st.dates t.date t.id }
  let st2 := t.tags.foldl (saveTagIndex t.id) st1
  t.posts.foldl (savePost t.id) st2

/-- Ledger.get_transactions_by_date: the transactions of the date
bucket, an empty list when the bucket is empty (a missing identifier
would raise KeyError). -/
def Ledger.get_transactions_by_date (st : Ledger) (d : LDate) :
    Except PyEx (List LedgerTransaction) :=
  let ids := st.dates d
  if ids.isEmpty then .ok []
  else ids.mapM (fun i =>
    match st.transactions i with
    | some t => .ok t
    | none => .error .keyError)

/-- Ledger.find_similar_transactions: after the empty-date-bucket
short circuit returns the empty set, the source evaluates t.items in
the amount-set comprehension; LedgerTransaction defines no attribute
named items (its postings live in the posts field), so every call that
reaches that point raises AttributeError, and the amount and
account-prefix narrowing stages below it are unreachable. -/
def Ledger.find_similar_transactions (st : Ledger) (t : LedgerTransaction) :
    Except PyEx (List LedgerTransaction) := do
  let t_subset ← st.get_transactions_by_date t.date
  if t_subset.isEmpty then .ok []
  else .error .attributeError

/-- Ledger.to_string: the unsorted branch replays the token stream; in
the sorted branch the boolean parameter named sorted shadows the
builtin sorted, so the call sorted(self.transactions.values(), ...)
invokes the value True and raises TypeError before any output is
assembled. -/
def Ledger.to_string (st : Ledger) (sortedFlag : Bool) : Except PyEx String :=
  if ¬ sortedFlag then .ok (pyConcat (st.tokens.map LedgerToken.to_string))
  else .error .typeError

/-- Folding one token into the store during parse. -/
def Ledger.consumeToken (st : Ledger) : LedgerToken → Ledger
  | .newLine => st
  | .commodity c => { st with commodities := st.commodities ++ [c] }
  | .tagDirective n => { st with tag_directives := st.tag_directives ++ [n] }
  | .transaction t => st.save_transaction t

/-- Ledger.parse: a missing file is reported and FileNotFoundError is
raised, before the lexer runs; otherwise the file is tokenized and the
tokens are stored and consumed into directives and saved
transactions.  The filesystem is embedded as the optional contents of
the ledger file. -/
def Ledger.parse (st : Ledger) (file : Option String) : Except PyEx Ledger :=
  match file with
  | none => .error .fileNotFoundError
  | some content => do
    let tokens ← tokenize content
    .ok (tokens.foldl Ledger.consumeToken { st with tokens := tokens })

/-- Decidable equality of embedded Python results. -/
instance {e a : Type} [DecidableEq e] [DecidableEq a] : DecidableEq (Except e a) := fun x y =>
  match x, y with
  | .ok v, .ok w =>
    decidable_of_iff (v = w) ⟨fun h => by rw [h], fun h => by cases h; rfl⟩
  | .error v, .error w =>
    decidable_of_iff (v = w) ⟨fun h => by rw [h], fun h => by cases h; rfl⟩
  | .ok _, .error _ => isFalse (fun h => by cases h)
  | .error _, .ok _ => isFalse (fun h => by cases h)

/-- Membership of an identifier in any bucket of the five indices. -/
def MemAnyBucket (st : Ledger) (id_ : String) : Prop :=
  (∃ k, id_ ∈ st.payees k) ∨ (∃ d, id_ ∈ st.dates d) ∨ (∃ a, id_ ∈ st.accounts a)
    ∨ (∃ n, id_ ∈ st.tags n) ∨ (∃ n v, id_ ∈ st.tagsv n v)

/-- Register a list of transactions into a fresh store, in order. -/
def saveAll (ts : List LedgerTransaction) : Ledger :=
  ts.foldl Ledger.save_transaction emptyLedger

/-- One store extends another: every index bucket grows and every
registered identifier stays registered. -/
def Subledger (st st2 : Ledger) : Prop :=
  (∀ k, st.payees k ⊆ st2.payees k) ∧ (∀ d, st.dates d ⊆ st2.dates d)
    ∧ (∀ a, st.accounts a ⊆ st2.accounts a) ∧ (∀ n, st.tags n ⊆ st2.tags n)
    ∧ (∀ n v, st.tagsv n v ⊆ st2.tagsv n v)
    ∧ (∀ i, (st.transactions i).isSome = true → (st2.transactions i).isSome = true)

/-- A store update introduces at most the given identifier into the
index buckets. -/
def AddsAtMost (i : String) (st st2 : Ledger) : Prop :=
  (∀ k x, x ∈ st2.payees k → x = i ∨ x ∈ st.payees k)
    ∧ (∀ d x, x ∈ st2.dates d → x = i ∨ x ∈ st.dates d)
    ∧ (∀ a x, x ∈ st2.accounts a → x = i ∨ x ∈ st.accounts a)
    ∧ (∀ n x, x ∈ st2.tags n → x = i ∨ x ∈ st.tags n)
    ∧ (∀ n v x, x ∈ st2.tagsv n v → x = i ∨ x ∈ st.tagsv n v)

/-!
Concrete sample values used by the theorems below.
-/

/-- The sample date 2019-08-02 of the end-to-end example. -/
def sampleDate : LDate := ⟨2019, 8, 2⟩

/-- A transaction built by explicit construction: two postings of 100.00
and -100.00 dollars, the end-to-end example of the specification. -/
def sampleTxn : LedgerTransaction :=
  { date := sampleDate
    payee := "Opening Balances"
    posts := [{ date := sampleDate, account := "Assets:Checking", amount := some ⟨10000, 2⟩ },
              { date := sampleDate, account := "Equity:Opening Balances",
                amount := some ⟨-10000, 2⟩ }]
    status := .cleared
    id := "t1" }

/-- A same-date query transaction sharing an amount and the Assets
account prefix with the sample transaction. -/
def queryTxn : LedgerTransaction :=
  { date := sampleDate
    payee := "Groceries"
    posts := [{ date := sampleDate, account := "Expenses:Food", amount := some ⟨10000, 2⟩ },
              { date := sampleDate, account := "Assets:Checking", amount := some ⟨-10000, 2⟩ }]
    id := "q1" }

/-- A query transaction on a date with an empty bucket. -/
def queryTxnOtherDate : LedgerTransaction :=
  { date := ⟨2020, 1, 1⟩, payee := "Other", posts := [], id := "q2" }

/-- Re-tokenization of a rendered transaction: the rendered text read
back line by line forms one transaction block (its lines are non-blank
and the first matches the transaction first-line regex), which
tokenize hands to parse_transaction. -/
def roundTripTransaction (t : LedgerTransaction) : Except PyEx LedgerTransaction :=
  parse_transaction (linesKeepEnds (t.to_string 4))

/-- A sample ledger file with a commodity directive, a tag directive
and one transaction. -/
def sampleFile : String :=
  "commodity USD\n\ntag cool\n2019/08/02 * Opening Balances\n    Assets:Checking   $ 100.00\n    Equity:Opening Balances   $ -100.00\n\n"

/-!
Claim theorems.
-/

/-- C1: the round-trip contract parse(render(t)) ≡ t fails on the code.
Rendering writes amounts without a dollar sign, and on re-tokenization
the posting-account regex (whose character class contains letters,
digits, spaces and dots, and whose separator alternatives include the
newline) swallows the whole line of the 100.00 posting: that posting
comes back with the amount text inside its account string and no
amount, while the -100.00 posting survives only because a minus sign
stops the account run.  Date, payee and status do round-trip. -/
theorem c1_round_trip_not_preserved :
    sampleTxn.posts.map (fun p => (p.account, p.amount)) =
      [("Assets:Checking", some ⟨10000, 2⟩), ("Equity:Opening Balances", some ⟨-10000, 2⟩)]
    ∧ (⟨10000, 2⟩ : PyDecimal).val = (100 : ℚ)
    ∧ (⟨-10000, 2⟩ : PyDecimal).val = (-100 : ℚ)
    ∧ (roundTripTransaction sampleTxn).map
        (fun t => t.posts.map (fun p => (p.account, p.amount))) =
      .ok [("Assets:Checking                      100.00 USD", none),
           ("Equity:Opening Balances", some ⟨-10000, 2⟩)]
    ∧ (roundTripTransaction sampleTxn).map (fun t => (t.date, t.payee, t.status)) =
      .ok (sampleDate, "Opening Balances", LedgerStatus.cleared) := by
  refine ⟨by decide, by norm_num [PyDecimal.val], by norm_num [PyDecimal.val],
    by decide, by decide⟩

/-- C2: rendering in Sorted mode does not return the sorted text: the
boolean parameter named sorted shadows the builtin sorted, so
to_string(sorted=True) raises TypeError on every store, while the
unsorted branch replays the token stream. -/
theorem c2_sorted_rendering_raises_type_error :
    (Ledger.parse emptyLedger (some sampleFile)).bind (fun st => st.to_string true) =
      .error .typeError
    ∧ (Ledger.parse emptyLedger (some sampleFile)).bind (fun st => st.to_string false) =
      .ok "commodity USD\n\ntag cool\n2019-08-02 * Opening Balances\n    Assets:Checking                      100.00 USD\n    Equity:Opening Balances             -100.00 USD\n\n" := by
  refine ⟨by decide, by decide⟩

/-- C3: find_similar_transactions cannot return the claimed narrowed
set: as soon as the date bucket of the queried transaction is
non-empty the source evaluates t.items, an attribute LedgerTransaction
does not define, and raises AttributeError; only the empty-date-bucket
short circuit returns (the empty set). -/
theorem c3_find_similar_raises_attribute_error :
    (emptyLedger.save_transaction sampleTxn).find_similar_transactions queryTxn =
      .error .attributeError
    ∧ (emptyLedger.save_transaction sampleTxn).find_similar_transactions queryTxnOtherDate =
      .ok [] := by
  refine ⟨by decide, by decide⟩

/-- C4 counterexample: parse on a missing file does not proceed
non-fatally, it raises FileNotFoundError. -/
theorem c4_parse_missing_file_aborts :
    emptyLedger.parse none = .error .fileNotFoundError := rfl

/-- C4 amended: parse on a missing path reports the condition and
raises FileNotFoundError before the lexer runs; the store is left in
its initial state, with no tokens, no transactions and empty index
buckets everywhere, so a caller catching the error can still construct
and write a fresh file. -/
theorem c4_parse_missing_file_leaves_store_empty :
    emptyLedger.parse none = .error .fileNotFoundError
    ∧ emptyLedger.tokens = []
    ∧ (∀ i, emptyLedger.transactions i = none)
    ∧ (∀ d, emptyLedger.dates d = [])
    ∧ (∀ p, emptyLedger.payees p = [])
    ∧ (∀ a, emptyLedger.accounts a = [])
    ∧ (∀ n, emptyLedger.tags n = [])
    ∧ (∀ n v, emptyLedger.tagsv n v = []) :=
  ⟨rfl, rfl, fun _ => rfl, fun _ => rfl, fun _ => rfl, fun _ => rfl, fun _ => rfl,
    fun _ _ => rfl⟩

/-- The integer cross-multiplied comparison of postings agrees with the
rational ordering of their sort keys. -/
theorem postSortKeyLe_iff (p q : LedgerTransactionPost) :
    postSortKeyLe p q = true ↔ postSortKey p ≤ postSortKey q := by
  cases hp : p.amount with
  | none =>
    cases hq : q.amount with
    | none => simp [postSortKeyLe, postSortKey, hp, hq]
    | some b =>
      simp only [postSortKeyLe, postSortKey, hp, hq, PyDecimal.val, decide_eq_true_eq]
      rw [div_eq_mul_inv, ← neg_mul, ← div_eq_mul_inv, le_div_iff₀ (by positivity)]
      rw [← pow_add]
      constructor <;> intro h <;> exact_mod_cast h
  | some a =>
    cases hq : q.amount with
    | none =>
      simp only [postSortKeyLe, postSortKey, hp, hq, PyDecimal.val, decide_eq_true_eq]
      rw [div_eq_mul_inv, ← neg_mul, ← div_eq_mul_inv, div_le_iff₀ (by positivity)]
      rw [← pow_add]
      constructor <;> intro h <;> exact_mod_cast h
    | some b =>
      simp only [postSortKeyLe, postSortKey, hp, hq, PyDecimal.val, decide_eq_true_eq]
      rw [div_eq_mul_inv, ← neg_mul, ← div_eq_mul_inv,
        div_eq_mul_inv (b.mantissa : ℚ), ← neg_mul, ← div_eq_mul_inv,
        div_le_div_iff₀ (by positivity) (by positivity)]
      constructor <;> intro h <;> exact_mod_cast h

/-- Dropping the length of the matched takeWhile prefix is dropWhile. -/
theorem drop_length_takeWhile (p : Char → Bool) (l : List Char) :
    l.drop (l.takeWhile p).length = l.dropWhile p := by
  induction l with
  | nil => rfl
  | cons c cs ih =>
    by_cases h : p c
    · simpa [List.takeWhile_cons, List.dropWhile_cons, h] using ih
    · simp [List.takeWhile_cons, List.dropWhile_cons, h]

/-- Elements of a takeWhile prefix satisfy the predicate. -/
theorem mem_takeWhile_pred {p : Char → Bool} {l : List Char} {x : Char}
    (h : x ∈ l.takeWhile p) : p x := by
  induction l with
  | nil => simp [List.takeWhile] at h
  | cons c cs ih =>
    rw [List.takeWhile_cons] at h
    by_cases hc : p c
    · simp [hc] at h
      rcases h with h | h
      · rwa [h]
      · exact ih h
    · simp [hc] at h

/-- splitChar on a separator-free list is the singleton of the list. -/
theorem splitChar_sep_free {sep : Char} {b : List Char} (hb : ∀ x ∈ b, x ≠ sep) :
    splitChar sep b = [b] := by
  induction b with
  | nil => rfl
  | cons c cs ih =>
    have hc : c ≠ sep := hb c (List.mem_cons_self c cs)
    have ih2 := ih (fun x hx => hb x (List.mem_cons_of_mem c hx))
    simp [splitChar, hc, ih2]

/-- splitChar of a list holding exactly one separator yields the two
separator-free parts. -/
theorem splitChar_pair {sep : Char} {a b : List Char}
    (ha : ∀ x ∈ a, x ≠ sep) (hb : ∀ x ∈ b, x ≠ sep) :
    splitChar sep (a ++ sep :: b) = [a, b] := by
  induction a with
  | nil => simp [splitChar, splitChar_sep_free hb]
  | cons c cs ih =>
    have hc : c ≠ sep := ha c (List.mem_cons_self c cs)
    have ih2 := ih (fun x hx => ha x (List.mem_cons_of_mem c hx))
    simp [splitChar, hc, ih2]

/-- A string accepted by the tag-with-value matcher is returned whole
and decomposes as a colon-free prefix, one colon, and a colon-free
suffix. -/
theorem tag_with_value_match_decomp (c m : String)
    (h : tag_with_value_match c = some m) :
    m = c ∧ ∃ a b : List Char,
      c.toList = a ++ ':' :: b ∧ (∀ x ∈ a, x ≠ ':') ∧ (∀ x ∈ b, x ≠ ':') := by
  simp only [tag_with_value_match] at h
  split at h
  · exact absurd h (by simp)
  split at h
  · exact absurd h (by simp)
  split at h
  case _ hws hw rest heq =>
    split at h
    case _ hall =>
      have hmc : m = c := by
        have := Option.some.inj h
        exact this.symm
      refine ⟨hmc, (c.toList.takeWhile pyIsSpace) ++
        ((c.toList.drop (c.toList.takeWhile pyIsSpace).length).takeWhile isWordChar),
        rest, ?_, ?_, ?_⟩
      · have e2 : c.toList.drop (c.toList.takeWhile pyIsSpace).length =
            ((c.toList.drop (c.toList.takeWhile pyIsSpace).length).takeWhile isWordChar)
              ++ (':' :: rest) := by
          conv_lhs => rw [← List.takeWhile_append_dropWhile isWordChar
            (c.toList.drop (c.toList.takeWhile pyIsSpace).length)]
          rw [← drop_length_takeWhile isWordChar, heq]
        have e1 : c.toList = c.toList.takeWhile pyIsSpace ++
            c.toList.drop (c.toList.takeWhile pyIsSpace).length := by
          rw [drop_length_takeWhile]
          exact (List.takeWhile_append_dropWhile pyIsSpace c.toList).symm
        rw [List.append_assoc]
        rw [e2] at e1
        exact e1
      · intro x hx
        rcases List.mem_append.mp hx with hx | hx
        · have hsp := mem_takeWhile_pred hx
          intro hcol
          rw [hcol] at hsp
          simp [pyIsSpace] at hsp
        · have hwd := mem_takeWhile_pred hx
          intro hcol
          rw [hcol] at hwd
          simp [isWordChar] at hwd
      · intro x hx
        have := List.all_eq_true.mp hall x hx
        simpa using this
    · exact absurd h (by simp)
  · exact absurd h (by simp)

/-- On any string the tag-with-value matcher accepts, the colon split
has exactly two parts, parse_tag_with_values succeeds, and
parse_item_comment routes the comment to one single tag. -/
theorem parse_tag_with_values_of_match (c m : String)
    (h : tag_with_value_match c = some m) :
    ((splitChar ':' m.toList).map String.mk).length = 2
    ∧ ∃ tg, parse_tag_with_values [m] = .ok tg ∧ parse_item_comment c = .ok ([], [tg]) := by
  obtain ⟨hmc, a, b, hdec, ha, hb⟩ := tag_with_value_match_decomp c m h
  subst hmc
  rw [hdec, splitChar_pair ha hb]
  have hdec2 : m.data = a ++ ':' :: b := hdec
  refine ⟨rfl, ⟨{ name := pyStrip (String.mk a), value := pyStrip (String.mk b) }, ?_, ?_⟩⟩
  · simp [parse_tag_with_values, hdec2, splitChar_pair ha hb]
  · simp only [parse_item_comment, h, parse_tag_with_values, String.toList, hdec2,
      splitChar_pair ha hb]
    rfl

/-- C10: every comment accepted by the tag-with-value matcher splits on
the colon into exactly two parts, so the arity-mismatch branch of
parse_tag_with_values is unreachable for input routed to it by
parse_item_comment and that path never raises. -/
theorem c10_tag_arity_error_unreachable :
    ∀ c m, tag_with_value_match c = some m →
      ((splitChar ':' m.toList).map String.mk).length = 2
      ∧ ∃ tg, parse_tag_with_values [m] = .ok tg := by
  intro c m h
  obtain ⟨h2, tg, htg, _⟩ := parse_tag_with_values_of_match c m h
  exact ⟨h2, tg, htg⟩

/-- C10 witness at the comment of a "; foo: bar" line. -/
theorem c10_tag_arity_error_unreachable_witness :
    ((splitChar ':' (" foo: bar" : String).toList).map String.mk).length = 2
    ∧ ∃ tg, parse_tag_with_values [" foo: bar"] = .ok tg :=
  c10_tag_arity_error_unreachable " foo: bar" " foo: bar" (by decide)

/-- C6: the comment of a "; foo: bar" line parses as exactly one Tag
foo with value bar; the comment of a "; :a:b:" line parses as exactly
the two empty-valued Tags a and b; whenever the tag-with-value matcher
accepts a comment, parse_item_comment returns that single tag (the
value-tag grammar is preferred); and when neither tag pattern matches,
the whole comment becomes one plain stripped Note. -/
theorem c6_tag_precedence :
    (item_comment_match "    ; foo: bar\n").map parse_item_comment =
      some (.ok ([], [{ name := "foo", value := "bar" }]))
    ∧ (item_comment_match "    ; :a:b:\n").map parse_item_comment =
      some (.ok ([], [{ name := "a" }, { name := "b" }]))
    ∧ (∀ c m, tag_with_value_match c = some m →
        ∃ tg, parse_item_comment c = .ok ([], [tg]))
    ∧ (∀ c, tag_with_value_match c = none → tag_without_value_findall c = [] →
        parse_item_comment c = .ok ([{ value := pyStrip c }], [])) := by
  refine ⟨by decide, by decide, ?_, ?_⟩
  · intro c m h
    obtain ⟨_, tg, _, hpic⟩ := parse_tag_with_values_of_match c m h
    exact ⟨tg, hpic⟩
  · intro c h1 h2
    simp [parse_item_comment, h1, h2]

/-- C6 witness: the value-tag grammar wins on the comment of a
"; foo: bar" line. -/
theorem c6_tag_precedence_witness :
    ∃ tg, parse_item_comment " foo: bar" = .ok ([], [tg]) :=
  c6_tag_precedence.2.2.1 " foo: bar" " foo: bar" (by decide)

/-- C5 counterexample: a transaction block with zero posting lines also
has fewer than two posting lines, but tokenizing it raises the
TypeError of subscripting a failed account-regex match on the empty
string, an error that does not carry the accumulated raw block text. -/
theorem c5_zero_postings_counterexample :
    parse_transaction ["2019/08/02 X\n"] = .error .typeError := by decide

/-- C5 amended: a transaction block of a first line and exactly one
posting line fails with the fatal too-few-postings error carrying the
joined raw block text, and no Transaction token is produced; a block
with no posting line at all also aborts fatally with no token, but
through a TypeError that carries no block text. -/
theorem c5_too_few_postings :
    (∀ (l1 l2 : String) (r : FirstLineTransactionGroup) (p : LedgerTransactionPost),
        parse_first_line_of_transaction l1 = .ok r →
        item_comment_match l2 = none →
        parse_transaction_post l2 r.date = .ok p →
        parse_transaction [l1, l2] = .error (.tooFewPostings (pyConcat [l1, l2])))
    ∧ tokenize "2019/08/02 * Opening\n    Assets:Checking   $ 100.00\n\n" =
        .error (.tooFewPostings "2019/08/02 * Opening\n    Assets:Checking   $ 100.00\n")
    ∧ tokenize "2019/08/02 X\n\n" = .error .typeError := by
  refine ⟨?_, by decide, by decide⟩
  intro l1 l2 r p h1 h2 h3
  have hbind : ∀ {α β : Type} (a : α) (f : α → Except PyEx β),
      ((Except.ok a : Except PyEx α) >>= f) = f a := fun _ _ => rfl
  simp [parse_transaction, scanComments, scanPosts, h1, h2, h3, hbind]

/-- C5 witness at a concrete one-posting block. -/
theorem c5_too_few_postings_witness :
    parse_transaction ["2019/08/02 * Opening\n", "    Assets:Checking   $ 100.00\n"] =
      .error (.tooFewPostings
        (pyConcat ["2019/08/02 * Opening\n", "    Assets:Checking   $ 100.00\n"])) :=
  c5_too_few_postings.1 "2019/08/02 * Opening\n" "    Assets:Checking   $ 100.00\n"
    ⟨⟨2019, 8, 2⟩, .cleared, "Opening", none⟩
    ⟨⟨2019, 8, 2⟩, [], [], "Assets:Checking", some ⟨10000, 2⟩, "USD"⟩
    (by decide) (by decide) (by decide)

/-- C7: the dollar-and-commas remainder and the bare negative remainder
parse to the exact decimals 1234.56 and -388.19, and an empty
remainder yields an absent amount; but a posting line whose non-empty
remainder holds no numeric content (an inline comment only) does not
yield None: the amount regex matches it with an empty group and
Decimal of the empty string raises decimal.InvalidOperation. -/
theorem c7_amount_parsing :
    parse_transaction_post "    Assets:Checking    $ 1,234.56\n" sampleDate =
      .ok { date := sampleDate, account := "Assets:Checking", amount := some ⟨123456, 2⟩ }
    ∧ (⟨123456, 2⟩ : PyDecimal).val = (123456 : ℚ) / 100
    ∧ parse_transaction_post "    Liabilities:Chase Sapphire Visa     -388.19\n" sampleDate =
      .ok { date := sampleDate, account := "Liabilities:Chase Sapphire Visa",
            amount := some ⟨-38819, 2⟩ }
    ∧ (⟨-38819, 2⟩ : PyDecimal).val = -((38819 : ℚ) / 100)
    ∧ parse_transaction_post "    Equity:Opening\n" sampleDate =
      .ok { date := sampleDate, account := "Equity:Opening", amount := none }
    ∧ parse_transaction_post "    Acc    ; hello\n" sampleDate = .error .invalidOperation := by
  refine ⟨by decide, by norm_num [PyDecimal.val], by decide,
    by norm_num [PyDecimal.val], by decide, by decide⟩

/-- C8: for every line the transaction-first-line regex matches, the
parsed status is Cleared exactly when the captured status character is
the asterisk, Pending exactly when it is the exclamation mark, and
Unknown exactly otherwise (in particular when it is absent); checked
concretely on the three status shapes of the repository's own
first-line cases. -/
theorem c8_status_mapping :
    (∀ (line ds : String) (sc : Option Char) (rest : String)
        (res : FirstLineTransactionGroup),
        firstLineMatch line = some (ds, sc, rest) →
        parse_first_line_of_transaction line = .ok res →
        ((res.status = .cleared ↔ sc = some '*')
          ∧ (res.status = .pending ↔ sc = some '!')
          ∧ (res.status = .unknown ↔ (sc ≠ some '*' ∧ sc ≠ some '!'))))
    ∧ parse_first_line_of_transaction "2019/05/01 * Opening Balances\n" =
        .ok ⟨⟨2019, 5, 1⟩, .cleared, "Opening Balances", none⟩
    ∧ parse_first_line_of_transaction "2019/07/09 ! Initial Transfer \t#an extra comment\n" =
        .ok ⟨⟨2019, 7, 9⟩, .pending, "Initial Transfer",
          some { value := "an extra comment", newline := false }⟩
    ∧ parse_first_line_of_transaction "2019/07/10 Initial Transfer \t#an extra comment\n" =
        .ok ⟨⟨2019, 7, 10⟩, .unknown, "Initial Transfer",
          some { value := "an extra comment", newline := false }⟩ := by
  refine ⟨?_, by decide, by decide, by decide⟩
  intro line ds sc rest res hm hok
  have hbind : ∀ {α β : Type} (a : α) (f : α → Except PyEx β),
      ((Except.ok a : Except PyEx α) >>= f) = f a := fun _ _ => rfl
  have hbindE : ∀ {α β : Type} (e : PyEx) (f : α → Except PyEx β),
      ((Except.error e : Except PyEx α) >>= f) = Except.error e := fun _ _ => rfl
  simp only [parse_first_line_of_transaction, hm] at hok
  cases hpn : payee_and_note_of (pyStrip rest) with
  | error e => rw [hpn, hbindE] at hok; exact Except.noConfusion hok
  | ok pn2 =>
    rw [hpn, hbind] at hok
    cases hd : datestr_to_date ds with
    | error e => rw [hd, hbindE] at hok; exact Except.noConfusion hok
    | ok d =>
      rw [hd, hbind] at hok
      have hres := (Except.ok.inj hok).symm
      by_cases h1 : sc = some '*'
      · subst h1
        simp [hres]
      · by_cases h2 : sc = some '!'
        · subst h2
          simp [hres]
        · simp [hres, h1, h2]

/-- C8 witness, the universal mapping applied at the cleared sample
line. -/
theorem c8_status_mapping_witness :
    (⟨⟨2019, 5, 1⟩, .cleared, "Opening Balances", none⟩ :
        FirstLineTransactionGroup).status = .cleared :=
  (c8_status_mapping.1 "2019/05/01 * Opening Balances\n" "2019/05/01" (some '*')
    " Opening Balances" ⟨⟨2019, 5, 1⟩, .cleared, "Opening Balances", none⟩
    (by decide) (by decide)).1.mpr rfl

/-- Membership after a set-style insertion. -/
theorem mem_addId_iff {x i : String} {l : List String} :
    x ∈ addId i l ↔ x = i ∨ x ∈ l := by
  by_cases h : i ∈ l
  · simp only [addId, if_pos h]
    constructor
    · exact fun hx => Or.inr hx
    · rintro (rfl | hx)
      · exact h
      · exact hx
  · simp only [addId, if_neg h, List.mem_cons]

/-- Bucket update keeps every old member. -/
theorem updFn_mono {α : Type} [DecidableEq α] {f : α → List String} {k : α} {i : String}
    (k2 : α) {x : String} (hx : x ∈ f k2) : x ∈ updFn f k i k2 := by
  unfold updFn
  by_cases h : k2 = k
  · subst h; rw [if_pos rfl]; exact mem_addId_iff.mpr (Or.inr hx)
  · rw [if_neg h]; exact hx

/-- Bucket update introduces at most the inserted identifier. -/
theorem mem_updFn {α : Type} [DecidableEq α] {f : α → List String} {k : α} {i : String}
    {k2 : α} {x : String} (hx : x ∈ updFn f k i k2) : x = i ∨ x ∈ f k2 := by
  unfold updFn at hx
  by_cases h : k2 = k
  · subst h; rw [if_pos rfl] at hx; exact mem_addId_iff.mp hx
  · rw [if_neg h] at hx; exact Or.inr hx

/-- The inserted identifier lands in its bucket. -/
theorem self_mem_updFn {α : Type} [DecidableEq α] (f : α → List String) (k : α)
    (i : String) : i ∈ updFn f k i k := by
  unfold updFn; rw [if_pos rfl]; exact mem_addId_iff.mpr (Or.inl rfl)

/-- Two-level bucket update keeps every old member. -/
theorem updFn2_mono {f : String → String → List String} {k1 k2 i : String}
    (a b : String) {x : String} (hx : x ∈ f a b) : x ∈ updFn2 f k1 k2 i a b := by
  unfold updFn2
  by_cases h : a = k1 ∧ b = k2
  · rcases h with ⟨rfl, rfl⟩; rw [if_pos ⟨rfl, rfl⟩]; exact mem_addId_iff.mpr (Or.inr hx)
  · rw [if_neg h]; exact hx

/-- Two-level bucket update introduces at most the inserted
identifier. -/
theorem mem_updFn2 {f : String → String → List String} {k1 k2 i : String}
    {a b x : String} (hx : x ∈ updFn2 f k1 k2 i a b) : x = i ∨ x ∈ f a b := by
  unfold updFn2 at hx
  by_cases h : a = k1 ∧ b = k2
  · rcases h with ⟨rfl, rfl⟩; rw [if_pos ⟨rfl, rfl⟩] at hx; exact mem_addId_iff.mp hx
  · rw [if_neg h] at hx; exact Or.inr hx

/-- Subledger is reflexive. -/
theorem subledger_refl (st : Ledger) : Subledger st st :=
  ⟨fun _ => fun _ h => h, fun _ => fun _ h => h, fun _ => fun _ h => h,
    fun _ => fun _ h => h, fun _ _ => fun _ h => h, fun _ h => h⟩

/-- Subledger is transitive. -/
theorem subledger_trans {a b c : Ledger} (h1 : Subledger a b) (h2 : Subledger b c) :
    Subledger a c :=
  ⟨fun k => (h1.1 k).trans (h2.1 k), fun d => (h1.2.1 d).trans (h2.2.1 d),
    fun x => (h1.2.2.1 x).trans (h2.2.2.1 x), fun n => (h1.2.2.2.1 n).trans (h2.2.2.2.1 n),
    fun n v => (h1.2.2.2.2.1 n v).trans (h2.2.2.2.2.1 n v),
    fun i hi => h2.2.2.2.2.2 i (h1.2.2.2.2.2 i hi)⟩

/-- AddsAtMost is transitive for a fixed identifier. -/
theorem addsAtMost_trans {i : String} {a b c : Ledger} (h1 : AddsAtMost i a b)
    (h2 : AddsAtMost i b c) : AddsAtMost i a c := by
  refine ⟨fun k x hx => ?_, fun d x hx => ?_, fun s x hx => ?_, fun n x hx => ?_,
    fun n v x hx => ?_⟩
  · rcases h2.1 k x hx with h | h
    · exact Or.inl h
    · exact h1.1 k x h
  · rcases h2.2.1 d x hx with h | h
    · exact Or.inl h
    · exact h1.2.1 d x h
  · rcases h2.2.2.1 s x hx with h | h
    · exact Or.inl h
    · exact h1.2.2.1 s x h
  · rcases h2.2.2.2.1 n x hx with h | h
    · exact Or.inl h
    · exact h1.2.2.2.1 n x h
  · rcases h2.2.2.2.2 n v x hx with h | h
    · exact Or.inl h
    · exact h1.2.2.2.2 n v x h

/-- Indexing one tag leaves the transaction map unchanged. -/
theorem saveTagIndex_transactions (i : String) (st : Ledger) (tag : LedgerTag) :
    (saveTagIndex i st tag).transactions = st.transactions := by
  unfold saveTagIndex; split <;> rfl

/-- Indexing one tag only grows the store. -/
theorem saveTagIndex_sub (i : String) (st : Ledger) (tag : LedgerTag) :
    Subledger st (saveTagIndex i st tag) := by
  unfold saveTagIndex; split
  · exact ⟨fun _ => fun _ h => h, fun _ => fun _ h => h, fun _ => fun _ h => h,
      fun _ => fun _ h => h, fun n v => fun _ h => updFn2_mono n v h, fun _ h => h⟩
  · exact ⟨fun _ => fun _ h => h, fun _ => fun _ h => h, fun _ => fun _ h => h,
      fun n => fun _ h => updFn_mono n h, fun _ _ => fun _ h => h, fun _ h => h⟩

/-- Indexing one tag adds at most its identifier. -/
theorem saveTagIndex_adds (i : String) (st : Ledger) (tag : LedgerTag) :
    AddsAtMost i st (saveTagIndex i st tag) := by
  unfold saveTagIndex; split
  · exact ⟨fun _ x hx => Or.inr hx, fun _ x hx => Or.inr hx, fun _ x hx => Or.inr hx,
      fun _ x hx => Or.inr hx, fun _ _ x hx => mem_updFn2 hx⟩
  · exact ⟨fun _ x hx => Or.inr hx, fun _ x hx => Or.inr hx, fun _ x hx => Or.inr hx,
      fun _ x hx => mem_updFn hx, fun _ _ x hx => Or.inr hx⟩

/-- Folding tag indexing leaves the transaction map unchanged. -/
theorem foldl_saveTagIndex_transactions (i : String) (l : List LedgerTag) :
    ∀ st : Ledger, ((l.foldl (saveTagIndex i) st).transactions) = st.transactions := by
  induction l with
  | nil => intro st; rfl
  | cons tg tl ih =>
    intro st
    rw [List.foldl_cons, ih, saveTagIndex_transactions]

/-- Folding tag indexing only grows the store. -/
theorem foldl_saveTagIndex_sub (i : String) (l : List LedgerTag) :
    ∀ st : Ledger, Subledger st (l.foldl (saveTagIndex i) st) := by
  induction l with
  | nil => intro st; exact subledger_refl st
  | cons tg tl ih =>
    intro st
    rw [List.foldl_cons]
    exact subledger_trans (saveTagIndex_sub i st tg) (ih _)

/-- Folding tag indexing adds at most the identifier. -/
theorem foldl_saveTagIndex_adds (i : String) (l : List LedgerTag) :
    ∀ st : Ledger, AddsAtMost i st (l.foldl (saveTagIndex i) st) := by
  induction l with
  | nil => intro st; exact ⟨fun _ x hx => Or.inr hx, fun _ x hx => Or.inr hx,
      fun _ x hx => Or.inr hx, fun _ x hx => Or.inr hx, fun _ _ x hx => Or.inr hx⟩
  | cons tg tl ih =>
    intro st
    rw [List.foldl_cons]
    exact addsAtMost_trans (saveTagIndex_adds i st tg) (ih _)

/-- Indexing one posting leaves the transaction map unchanged. -/
theorem savePost_transactions (i : String) (st : Ledger) (p : LedgerTransactionPost) :
    (savePost i st p).transactions = st.transactions := by
  unfold savePost
  rw [foldl_saveTagIndex_transactions]

/-- Indexing one posting only grows the store. -/
theorem savePost_sub (i : String) (st : Ledger) (p : LedgerTransactionPost) :
    Subledger st (savePost i st p) := by
  unfold savePost
  refine subledger_trans ?_ (foldl_saveTagIndex_sub i p.tags _)
  exact ⟨fun _ => fun _ h => h, fun _ => fun _ h => h,
    fun a => fun _ h => updFn_mono a h, fun _ => fun _ h => h,
    fun _ _ => fun _ h => h, fun _ h => h⟩

/-- Indexing one posting adds at most the identifier. -/
theorem savePost_adds (i : String) (st : Ledger) (p : LedgerTransactionPost) :
    AddsAtMost i st (savePost i st p) := by
  unfold savePost
  refine addsAtMost_trans ?_ (foldl_saveTagIndex_adds i p.tags _)
  exact ⟨fun _ x hx => Or.inr hx, fun _ x hx => Or.inr hx, fun _ x hx => mem_updFn hx,
    fun _ x hx => Or.inr hx, fun _ _ x hx => Or.inr hx⟩

/-- Indexing one posting puts the identifier into its account bucket. -/
theorem savePost_self_mem (i : String) (st : Ledger) (p : LedgerTransactionPost) :
    i ∈ (savePost i st p).accounts p.account := by
  unfold savePost
  exact (foldl_saveTagIndex_sub i p.tags _).2.2.1 p.account (self_mem_updFn st.accounts p.account i)

/-- Folding posting indexing leaves the transaction map unchanged. -/
theorem foldl_savePost_transactions (i : String) (l : List LedgerTransactionPost) :
    ∀ st : Ledger, ((l.foldl (savePost i) st).transactions) = st.transactions := by
  induction l with
  | nil => intro st; rfl
  | cons p tl ih =>
    intro st
    rw [List.foldl_cons, ih, savePost_transactions]

/-- Folding posting indexing only grows the store. -/
theorem foldl_savePost_sub (i : String) (l : List LedgerTransactionPost) :
    ∀ st : Ledger, Subledger st (l.foldl (savePost i) st) := by
  induction l with
  | nil => intro st; exact subledger_refl st
  | cons p tl ih =>
    intro st
    rw [List.foldl_cons]
    exact subledger_trans (savePost_sub i st p) (ih _)

/-- Folding posting indexing adds at most the identifier. -/
theorem foldl_savePost_adds (i : String) (l : List LedgerTransactionPost) :
    ∀ st : Ledger, AddsAtMost i st (l.foldl (savePost i) st) := by
  induction l with
  | nil => intro st; exact ⟨fun _ x hx => Or.inr hx, fun _ x hx => Or.inr hx,
      fun _ x hx => Or.inr hx, fun _ x hx => Or.inr hx, fun _ _ x hx => Or.inr hx⟩
  | cons p tl ih =>
    intro st
    rw [List.foldl_cons]
    exact addsAtMost_trans (savePost_adds i st p) (ih _)

/-- Folding posting indexing covers the account bucket of every posting
of the list. -/
theorem foldl_savePost_mem (i : String) (l : List LedgerTransactionPost) :
    ∀ st : Ledger, ∀ p ∈ l, i ∈ ((l.foldl (savePost i) st).accounts p.account) := by
  induction l with
  | nil => intro st p hp; cases hp
  | cons q tl ih =>
    intro st p hp
    rw [List.foldl_cons]
    rcases List.mem_cons.mp hp with rfl | hp2
    · exact (foldl_savePost_sub i tl _).2.2.1 p.account (savePost_self_mem i st p)
    · exact ih _ p hp2

/-- The transaction map after save_transaction: the saved transaction
under its identifier, everything else untouched. -/
theorem save_transaction_lookup (st : Ledger) (t : LedgerTransaction) (i : String) :
    (st.save_transaction t).transactions i =
      if i = t.id then some t else st.transactions i := by
  unfold Ledger.save_transaction
  rw [foldl_savePost_transactions, foldl_saveTagIndex_transactions]

/-- save_transaction only grows the store. -/
theorem save_transaction_sub (st : Ledger) (t : LedgerTransaction) :
    Subledger st (st.save_transaction t) := by
  unfold Ledger.save_transaction
  refine subledger_trans (subledger_trans ?_ (foldl_saveTagIndex_sub t.id t.tags _))
    (foldl_savePost_sub t.id t.posts _)
  refine ⟨fun k => fun _ h => updFn_mono k h, fun d => fun _ h => updFn_mono d h,
    fun _ => fun _ h => h, fun _ => fun _ h => h, fun _ _ => fun _ h => h, fun i hi => ?_⟩
  by_cases h : i = t.id
  · simp [h]
  · simpa [h] using hi

/-- save_transaction adds at most the saved identifier to the
buckets. -/
theorem save_transaction_adds (st : Ledger) (t : LedgerTransaction) :
    AddsAtMost t.id st (st.save_transaction t) := by
  unfold Ledger.save_transaction
  refine addsAtMost_trans (addsAtMost_trans ?_ (foldl_saveTagIndex_adds t.id t.tags _))
    (foldl_savePost_adds t.id t.posts _)
  exact ⟨fun _ x hx => mem_updFn hx, fun _ x hx => mem_updFn hx, fun _ x hx => Or.inr hx,
    fun _ x hx => Or.inr hx, fun _ _ x hx => Or.inr hx⟩

/-- save_transaction inserts the identifier into the payee bucket, the
date bucket and the account bucket of every posting. -/
theorem save_transaction_mem (st : Ledger) (t : LedgerTransaction) :
    t.id ∈ (st.save_transaction t).payees t.payee
    ∧ t.id ∈ (st.save_transaction t).dates t.date
    ∧ ∀ post ∈ t.posts, t.id ∈ (st.save_transaction t).accounts post.account := by
  unfold Ledger.save_transaction
  refine ⟨?_, ?_, ?_⟩
  · exact (foldl_savePost_sub t.id t.posts _).1 t.payee
      ((foldl_saveTagIndex_sub t.id t.tags _).1 t.payee
        (self_mem_updFn st.payees t.payee t.id))
  · exact (foldl_savePost_sub t.id t.posts _).2.1 t.date
      ((foldl_saveTagIndex_sub t.id t.tags _).2.1 t.date
        (self_mem_updFn st.dates t.date t.id))
  · exact fun post hp => foldl_savePost_mem t.id t.posts _ post hp

/-- C9: after any sequence of save_transaction calls on a fresh store,
every identifier in any bucket of the payee, date, account, tag, or
tag-value index is a key of the transaction map, and each saved
transaction's identifier is in the date bucket of its date, the payee
bucket of its payee, and the account bucket of each of its
postings. -/
theorem c9_index_consistency (ts : List LedgerTransaction) :
    (∀ i, MemAnyBucket (saveAll ts) i → ((saveAll ts).transactions i).isSome = true)
    ∧ ∀ t ∈ ts, t.id ∈ (saveAll ts).dates t.date ∧ t.id ∈ (saveAll ts).payees t.payee
        ∧ ∀ post ∈ t.posts, t.id ∈ (saveAll ts).accounts post.account := by
  have hstep : ∀ (st : Ledger) (t : LedgerTransaction),
      (∀ i, MemAnyBucket st i → (st.transactions i).isSome = true) →
      ∀ i, MemAnyBucket (st.save_transaction t) i →
        ((st.save_transaction t).transactions i).isSome = true := by
    intro st t hinv i hm
    have hor : i = t.id ∨ MemAnyBucket st i := by
      rcases hm with ⟨k, hk⟩ | ⟨d, hd⟩ | ⟨a, ha⟩ | ⟨n, hn⟩ | ⟨n, v, hv⟩
      · rcases (save_transaction_adds st t).1 k i hk with h | h
        · exact Or.inl h
        · exact Or.inr (Or.inl ⟨k, h⟩)
      · rcases (save_transaction_adds st t).2.1 d i hd with h | h
        · exact Or.inl h
        · exact Or.inr (Or.inr (Or.inl ⟨d, h⟩))
      · rcases (save_transaction_adds st t).2.2.1 a i ha with h | h
        · exact Or.inl h
        · exact Or.inr (Or.inr (Or.inr (Or.inl ⟨a, h⟩)))
      · rcases (save_transaction_adds st t).2.2.2.1 n i hn with h | h
        · exact Or.inl h
        · exact Or.inr (Or.inr (Or.inr (Or.inr (Or.inl ⟨n, h⟩))))
      · rcases (save_transaction_adds st t).2.2.2.2 n v i hv with h | h
        · exact Or.inl h
        · exact Or.inr (Or.inr (Or.inr (Or.inr (Or.inr ⟨n, v, h⟩))))
    rcases hor with rfl | hmem
    · rw [save_transaction_lookup]
      simp
    · exact (save_transaction_sub st t).2.2.2.2.2 i (hinv i hmem)
  have hinv0 : ∀ i, MemAnyBucket emptyLedger i →
      ((emptyLedger).transactions i).isSome = true := by
    intro i hm
    rcases hm with ⟨k, hk⟩ | ⟨d, hd⟩ | ⟨a, ha⟩ | ⟨n, hn⟩ | ⟨n, v, hv⟩
    · exact absurd hk (List.not_mem_nil i)
    · exact absurd hd (List.not_mem_nil i)
    · exact absurd ha (List.not_mem_nil i)
    · exact absurd hn (List.not_mem_nil i)
    · exact absurd hv (List.not_mem_nil i)
  have hfold : ∀ (l : List LedgerTransaction) (st : Ledger),
      (∀ i, MemAnyBucket st i → (st.transactions i).isSome = true) →
      ∀ i, MemAnyBucket (l.foldl Ledger.save_transaction st) i →
        ((l.foldl Ledger.save_transaction st).transactions i).isSome = true := by
    intro l
    induction l with
    | nil => intro st h; exact h
    | cons t tl ih =>
      intro st h
      rw [List.foldl_cons]
      exact ih _ (hstep st t h)
  have hsub : ∀ (l : List LedgerTransaction) (st : Ledger),
      Subledger st (l.foldl Ledger.save_transaction st) := by
    intro l
    induction l with
    | nil => intro st; exact subledger_refl st
    | cons t tl ih =>
      intro st
      rw [List.foldl_cons]
      exact subledger_trans (save_transaction_sub st t) (ih _)
  have hmem : ∀ (l : List LedgerTransaction) (st : Ledger), ∀ t ∈ l,
      t.id ∈ (l.foldl Ledger.save_transaction st).dates t.date
      ∧ t.id ∈ (l.foldl Ledger.save_transaction st).payees t.payee
      ∧ ∀ post ∈ t.posts,
          t.id ∈ (l.foldl Ledger.save_transaction st).accounts post.account := by
    intro l
    induction l with
    | nil => intro st t ht; cases ht
    | cons q tl ih =>
      intro st t ht
      rw [List.foldl_cons]
      rcases List.mem_cons.mp ht with rfl | ht2
      · have hm := save_transaction_mem st t
        have hs := hsub tl (st.save_transaction t)
        exact ⟨hs.2.1 t.date hm.2.1, hs.1 t.payee hm.1,
          fun post hp => hs.2.2.1 post.account (hm.2.2 post hp)⟩
      · exact ih _ t ht2
  exact ⟨hfold ts emptyLedger hinv0, fun t ht => hmem ts emptyLedger t ht⟩

/-- C9 witness at a one-element save sequence. -/
theorem c9_index_consistency_witness :
    ((saveAll [sampleTxn]).transactions sampleTxn.id).isSome = true
    ∧ sampleTxn.id ∈ (saveAll [sampleTxn]).dates sampleTxn.date
    ∧ sampleTxn.id ∈ (saveAll [sampleTxn]).payees sampleTxn.payee := by
  have h := c9_index_consistency [sampleTxn]
  have hm := h.2 sampleTxn (by simp)
  exact ⟨h.1 sampleTxn.id (Or.inr (Or.inl ⟨sampleTxn.date, hm.1⟩)), hm.1, hm.2.1⟩

end Acct
